import Mathlib

/-!
Verification development for the surrealdb snapshot consisting of
`lib/src/iam/signup.rs` (the scope signup flow) and
`src/sql/statements/delete.rs` (the DELETE statement: compute, Display,
parser).

The Rust code is shallowly embedded: effectful collaborators that live
outside the two source files (the datastore transaction, the scope lookup,
the expression evaluator, the JWT encoder, the wall clock) are oracles
collected in an environment record, and the functions of the source files
are translated as pure Lean functions over those oracles, threading the
mutable `Session` explicitly and logging the store-facing effects they
perform.  All clock reads within one call are modelled as a single instant
(the code calls `Utc::now()` several times in immediate succession), and
durations are modelled at whole-second granularity.
-/

namespace SDB

/-- A record identifier (sql `Thing`): a table name and a record id. -/
structure Thing where
  tb : String
  id : String
deriving DecidableEq

/-- Modelled from the spec: the raw rendering of a record id, `table:id`. -/
def Thing.to_raw (t : Thing) : String := t.tb ++ ":" ++ t.id

/-- The sql value union, restricted to the constructors the two source files
dispatch on (`Table`, `Thing`, `Model`, `Array`, `Object`) plus the scalar
kinds needed as "any other value kind" and as variable payloads. -/
inductive Value where
  | none
  | bool (b : Bool)
  | number (n : Int)
  | strand (s : String)
  | table (t : String)
  | thing (t : Thing)
  | model (m : String)
  | array (a : List Value)
  | object (o : List (String × Value))

/-- Modelled from the spec (`Value::to_raw_string` is outside src): the plain
string carried by a value. -/
def Value.to_raw_string : Value → String
  | .strand s => s
  | .table t => t
  | .thing t => t.to_raw
  | .number n => toString n
  | .bool b => toString b
  | _ => ""

/-- Modelled from the spec: a computed value carries a record identity
exactly when it is a record reference. -/
def Value.record : Value → Option Thing
  | .thing t => some t
  | _ => Option.none

/-- Association lookup on an object's fields (`Object::get`). -/
def getKey : List (String × Value) → String → Option Value
  | [], _ => Option.none
  | (k, v) :: r, s => if k = s then some v else getKey r s

/-- The iam permission level (`iam::Level`). -/
inductive Level where
  | no
  | scope (ns db sc : String)
  | database (ns db : String)
  | nspace (ns : String)
  | root
deriving DecidableEq

/-- An authenticated actor: identity, roles, level (`iam::Actor`). -/
structure Actor where
  id : String
  roles : List String
  level : Level
deriving DecidableEq

/-- `Actor::new`. -/
def Actor.new (id : String) (roles : List String) (level : Level) : Actor :=
  ⟨id, roles, level⟩

/-- The session's authentication state (`iam::Auth`). -/
structure Auth where
  actor : Actor
deriving DecidableEq

/-- `Auth::new`. -/
def Auth.new (a : Actor) : Auth := ⟨a⟩

/-- JWT claims (`iam::token::Claims`); all fields optional, defaulting to
`Option.none` as in `Claims::default()`. -/
structure Claims where
  iss : Option String := Option.none
  iat : Option Int := Option.none
  nbf : Option Int := Option.none
  exp : Option Int := Option.none
  ns : Option String := Option.none
  db : Option String := Option.none
  sc : Option String := Option.none
  id : Option String := Option.none
deriving DecidableEq

/-- The per-connection session (`dbs::Session`), restricted to the fields
`signup.rs` touches.  The token field stores the claims themselves (the code
stores their value rendering). -/
structure Session where
  tk : Option Claims := Option.none
  ns : Option String := Option.none
  db : Option String := Option.none
  sc : Option String := Option.none
  sd : Option Value := Option.none
  au : Auth := ⟨⟨"", [], Level.no⟩⟩

/-- Modelled from the spec: the privileged internal session used to evaluate
the signup expression (`Session::editor()`). -/
def Session.editor : Session :=
  { au := ⟨⟨"editor", [], Level.root⟩⟩ }

/-- `Session::with_ns`. -/
def Session.with_ns (s : Session) (n : String) : Session := { s with ns := some n }

/-- `Session::with_db`. -/
def Session.with_db (s : Session) (d : String) : Session := { s with db := some d }

/-- The persisted scope configuration (`DefineScopeStatement`, the `sv` of
`signup.rs`): signing secret, optional signup and signin expressions,
optional session duration in whole seconds. -/
structure DefineScopeStatement where
  code : String
  signup : Option Value := Option.none
  signin : Option Value := Option.none
  session : Option Nat := Option.none

/-- The error union, restricted to the constructors the two source files
produce; `Tx` stands for any other datastore error propagated unchanged. -/
inductive Error where
  | InvalidAuth
  | DeleteStatementError (value : Value)
  | Tx (msg : String)

/-- The store-facing effects a signup call can perform, in order. -/
inductive Effect where
  | openTx
  | getSc (ns db sc : String)
  | computeSignup
  | encodeToken
deriving DecidableEq

/-- Outcome of a signup call: a Rust panic, an error, or `Ok` with the
optional token of the declared return type. -/
inductive SignupRes where
  | panics
  | err (e : Error)
  | ok (v : Option String)

/-- `true` exactly on the error outcome. -/
def SignupRes.isErr : SignupRes → Bool
  | .err _ => true
  | _ => false

/-- Result of a signup call: outcome, final session, performed effects. -/
structure SignupOut where
  res : SignupRes
  session : Session
  effects : List Effect

/-- The oracle environment for `signup`: transaction opening, scope lookup,
expression evaluation, token signing, and the current unix time. -/
structure SignupEnv where
  tx : Except Error Unit
  get_sc : String → String → String → Option DefineScopeStatement
  compute : Value → Session → List (String × Value) → Except Unit Value
  encode : String → Claims → Except Unit String
  now : Int

/-- `cnf::SERVER_NAME`. -/
def SERVER_NAME : String := "SurrealDB"

/-- chrono's `Duration::from_std` at whole-second granularity: the
conversion succeeds exactly when the duration fits in the signed 64-bit
millisecond range of the chrono duration type. -/
def fromStd (secs : Nat) : Option Int :=
  if secs * 1000 ≤ 9223372036854775807 then some (Int.ofNat secs) else Option.none

/-- The expiry timestamp of the claims built by `sc`: now plus the scope's
session duration when configured (`Option.none` models the panicking
`unwrap` on an out-of-range duration), now plus one hour otherwise. -/
def scExp (env : SignupEnv) (sv : DefineScopeStatement) : Option Int :=
  match sv.session with
  | some du => (fromStd du).map (fun cd => env.now + cd)
  | Option.none => some (env.now + 3600)

/-- The claims record built by `sc` (signup.rs lines 66-84). -/
def signupClaims (env : SignupEnv) (ns db scn : String) (expTs : Int)
    (rid : Thing) : Claims :=
  { iss := some SERVER_NAME
    iat := some env.now
    nbf := some env.now
    exp := some expTs
    ns := some ns
    db := some db
    sc := some scn
    id := some rid.to_raw }

/-- The tail of `sc` after a record identity is obtained (signup.rs lines
64-104): build the claims, sign them, mutate the session, and only then
inspect the signing result. -/
def finishSc (env : SignupEnv) (session : Session) (ns db scn : String)
    (sv : DefineScopeStatement) (rid : Thing) (expTs : Int) : SignupOut :=
  let claims := signupClaims env ns db scn expTs rid
  let enc := env.encode sv.code claims
  let session' : Session :=
    { session with
      tk := some claims
      ns := some ns
      db := some db
      sc := some scn
      sd := some (Value.thing rid)
      au := Auth.new (Actor.new rid.to_raw [] (Level.scope ns db scn)) }
  match enc with
  | .ok tk => ⟨.ok (some tk), session', [.openTx, .getSc ns db scn, .computeSignup, .encodeToken]⟩
  | .error _ => ⟨.err .InvalidAuth, session', [.openTx, .getSc ns db scn, .computeSignup, .encodeToken]⟩

/-- `iam::signup::sc` (signup.rs lines 37-120): open a read-only
transaction, look up the scope, require a signup expression, evaluate it
under an editor session, require a record identity, then build and sign the
claims. -/
def sc (env : SignupEnv) (session : Session) (ns db scn : String)
    (vars : List (String × Value)) : SignupOut :=
  match env.tx with
  | .error e => ⟨.err e, session, [.openTx]⟩
  | .ok _ =>
    match env.get_sc ns db scn with
    | Option.none => ⟨.err .InvalidAuth, session, [.openTx, .getSc ns db scn]⟩
    | some sv =>
      match sv.signup with
      | Option.none => ⟨.err .InvalidAuth, session, [.openTx, .getSc ns db scn]⟩
      | some val =>
        match env.compute val ((Session.editor.with_ns ns).with_db db) vars with
        | .error _ => ⟨.err .InvalidAuth, session, [.openTx, .getSc ns db scn, .computeSignup]⟩
        | .ok v =>
          match v.record with
          | Option.none => ⟨.err .InvalidAuth, session, [.openTx, .getSc ns db scn, .computeSignup]⟩
          | some rid =>
            match scExp env sv with
            | Option.none => ⟨.panics, session, [.openTx, .getSc ns db scn, .computeSignup]⟩
            | some expTs => finishSc env session ns db scn sv rid expTs

/-- The three case-insensitive key lookups of `signup` (signup.rs lines
20-22) followed by `to_raw_string`, bundled. -/
def resolvedKeys (vars : List (String × Value)) : Option (String × String × String) :=
  match (getKey vars "NS").orElse (fun _ => getKey vars "ns"),
      (getKey vars "DB").orElse (fun _ => getKey vars "db"),
      (getKey vars "SC").orElse (fun _ => getKey vars "sc") with
  | some n, some d, some s =>
    some (n.to_raw_string, d.to_raw_string, s.to_raw_string)
  | _, _, _ => Option.none

/-- `iam::signup::signup` (signup.rs lines 14-35): resolve the `NS`/`ns`,
`DB`/`db`, `SC`/`sc` keys and delegate to `sc`, failing with `InvalidAuth`
when any is missing. -/
def signup (env : SignupEnv) (session : Session)
    (vars : List (String × Value)) : SignupOut :=
  match (getKey vars "NS").orElse (fun _ => getKey vars "ns"),
      (getKey vars "DB").orElse (fun _ => getKey vars "db"),
      (getKey vars "SC").orElse (fun _ => getKey vars "sc") with
  | some n, some d, some s =>
    sc env session n.to_raw_string d.to_raw_string s.to_raw_string vars
  | _, _, _ => ⟨.err .InvalidAuth, session, []⟩

theorem signup_eq_resolved (env : SignupEnv) (session : Session)
    (vars : List (String × Value)) :
    signup env session vars =
      match resolvedKeys vars with
      | some (n, d, s) => sc env session n d s vars
      | Option.none => ⟨.err .InvalidAuth, session, []⟩ := by
  unfold signup resolvedKeys
  cases (getKey vars "NS").orElse (fun _ => getKey vars "ns") <;>
    cases (getKey vars "DB").orElse (fun _ => getKey vars "db") <;>
      cases (getKey vars "SC").orElse (fun _ => getKey vars "sc") <;> rfl

theorem signup_eq_sc (env : SignupEnv) (session : Session)
    (vars : List (String × Value)) (n d s : String)
    (h : resolvedKeys vars = some (n, d, s)) :
    signup env session vars = sc env session n d s vars := by
  rw [signup_eq_resolved, h]

/-- The session written by `finishSc` does not depend on the signing
outcome: it is the mutated session in both branches. -/
theorem finishSc_session (env : SignupEnv) (s0 : Session) (n d s : String)
    (sv : DefineScopeStatement) (rid : Thing) (ex : Int) :
    (finishSc env s0 n d s sv rid ex).session =
      { s0 with
        tk := some (signupClaims env n d s ex rid)
        ns := some n
        db := some d
        sc := some s
        sd := some (Value.thing rid)
        au := Auth.new (Actor.new rid.to_raw [] (Level.scope n d s)) } := by
  simp only [finishSc]
  split <;> rfl

/-- Inversion of a successful `sc` call: every stage succeeded and the call
ends in `finishSc`. -/
theorem sc_success_shape (env : SignupEnv) (s0 : Session) (n d s : String)
    (vars : List (String × Value)) (tk : String)
    (hok : (sc env s0 n d s vars).res = .ok (some tk)) :
    ∃ sv val v rid ex,
      env.get_sc n d s = some sv ∧ sv.signup = some val ∧
      env.compute val ((Session.editor.with_ns n).with_db d) vars = .ok v ∧
      v.record = some rid ∧ scExp env sv = some ex ∧
      sc env s0 n d s vars = finishSc env s0 n d s sv rid ex := by
  cases htx : env.tx with
  | error e => simp [sc, htx] at hok
  | ok u =>
    cases hsv : env.get_sc n d s with
    | none => simp [sc, htx, hsv] at hok
    | some sv =>
      cases hsgn : sv.signup with
      | none => simp [sc, htx, hsv, hsgn] at hok
      | some val =>
        cases hcmp : env.compute val ((Session.editor.with_ns n).with_db d) vars with
        | error e => simp [sc, htx, hsv, hsgn, hcmp] at hok
        | ok v =>
          cases hrec : v.record with
          | none => simp [sc, htx, hsv, hsgn, hcmp, hrec] at hok
          | some rid =>
            cases hex : scExp env sv with
            | none => simp [sc, htx, hsv, hsgn, hcmp, hrec, hex] at hok
            | some ex =>
              refine ⟨sv, val, v, rid, ex, rfl, hsgn, hcmp, hrec, hex, ?_⟩
              simp [sc, htx, hsv, hsgn, hcmp, hrec, hex]

theorem sc_never_ok_none (env : SignupEnv) (s0 : Session) (n d s : String)
    (vars : List (String × Value)) :
    (sc env s0 n d s vars).res ≠ .ok Option.none := by
  cases htx : env.tx with
  | error e => simp [sc, htx]
  | ok u =>
    cases hsv : env.get_sc n d s with
    | none => simp [sc, htx, hsv]
    | some sv =>
      cases hsgn : sv.signup with
      | none => simp [sc, htx, hsv, hsgn]
      | some val =>
        cases hcmp : env.compute val ((Session.editor.with_ns n).with_db d) vars with
        | error e => simp [sc, htx, hsv, hsgn, hcmp]
        | ok v =>
          cases hrec : v.record with
          | none => simp [sc, htx, hsv, hsgn, hcmp, hrec]
          | some rid =>
            cases hex : scExp env sv with
            | none => simp [sc, htx, hsv, hsgn, hcmp, hrec, hex]
            | some ex =>
              cases henc : env.encode sv.code (signupClaims env n d s ex rid) with
              | ok tk => simp [sc, htx, hsv, hsgn, hcmp, hrec, hex, finishSc, henc]
              | error e => simp [sc, htx, hsv, hsgn, hcmp, hrec, hex, finishSc, henc]

/-- Both keys of one case-insensitive pair are absent from the variables. -/
def lacksKey (vars : List (String × Value)) (upper lower : String) : Prop :=
  getKey vars upper = Option.none ∧ getKey vars lower = Option.none

/-- A concrete scope definition allowing signup, with a 15-minute session. -/
def exScope : DefineScopeStatement :=
  { code := "secret", signup := some (Value.strand "CREATE user"), session := some 900 }

/-- A concrete scope definition with an out-of-range session duration. -/
def exScopeHuge : DefineScopeStatement :=
  { code := "secret", signup := some (Value.strand "CREATE user"),
    session := some 10000000000000000000 }

/-- Concrete signup variables with lower-case keys. -/
def exVars : List (String × Value) :=
  [("ns", Value.strand "n"), ("db", Value.strand "d"), ("sc", Value.strand "s")]

/-- A concrete environment on which every stage succeeds. -/
def exEnvOk : SignupEnv :=
  { tx := .ok ()
    get_sc := fun _ _ _ => some exScope
    compute := fun _ _ _ => .ok (Value.thing ⟨"user", "1"⟩)
    encode := fun _ _ => .ok "tok"
    now := 1000 }

/-- A concrete environment on which only token signing fails. -/
def exEnvEncFail : SignupEnv :=
  { exEnvOk with encode := fun _ _ => .error () }

/-- A concrete environment whose scope has an out-of-range session duration. -/
def exEnvHuge : SignupEnv :=
  { exEnvOk with get_sc := fun _ _ _ => some exScopeHuge }

/-- C1: every failure case of the signup flow — variables missing any of the
ns/db/sc keys, unknown scope, scope without a signup expression, failing
signup expression, computed value without a record identity, or failing
token signing — returns the same single InvalidAuth error. -/
theorem signup_failures_all_invalid_auth (env : SignupEnv) (s0 : Session)
    (vars : List (String × Value)) (htx : env.tx = .ok ()) :
    ((lacksKey vars "NS" "ns" ∨ lacksKey vars "DB" "db" ∨ lacksKey vars "SC" "sc") →
      (signup env s0 vars).res = .err .InvalidAuth)
    ∧ (∀ n d s, resolvedKeys vars = some (n, d, s) →
        env.get_sc n d s = Option.none →
        (signup env s0 vars).res = .err .InvalidAuth)
    ∧ (∀ n d s sv, resolvedKeys vars = some (n, d, s) →
        env.get_sc n d s = some sv → sv.signup = Option.none →
        (signup env s0 vars).res = .err .InvalidAuth)
    ∧ (∀ n d s sv val, resolvedKeys vars = some (n, d, s) →
        env.get_sc n d s = some sv → sv.signup = some val →
        env.compute val ((Session.editor.with_ns n).with_db d) vars = .error () →
        (signup env s0 vars).res = .err .InvalidAuth)
    ∧ (∀ n d s sv val v, resolvedKeys vars = some (n, d, s) →
        env.get_sc n d s = some sv → sv.signup = some val →
        env.compute val ((Session.editor.with_ns n).with_db d) vars = .ok v →
        v.record = Option.none →
        (signup env s0 vars).res = .err .InvalidAuth)
    ∧ (∀ n d s sv val v rid ex, resolvedKeys vars = some (n, d, s) →
        env.get_sc n d s = some sv → sv.signup = some val →
        env.compute val ((Session.editor.with_ns n).with_db d) vars = .ok v →
        v.record = some rid → scExp env sv = some ex →
        env.encode sv.code (signupClaims env n d s ex rid) = .error () →
        (signup env s0 vars).res = .err .InvalidAuth) := by
  refine ⟨?_, ?_, ?_, ?_, ?_, ?_⟩
  · rintro (⟨h1, h2⟩ | ⟨h1, h2⟩ | ⟨h1, h2⟩)
    · unfold signup
      rw [h1, h2]
      cases getKey vars "DB" <;> cases getKey vars "db" <;>
        cases getKey vars "SC" <;> cases getKey vars "sc" <;> rfl
    · unfold signup
      rw [h1, h2]
      cases getKey vars "NS" <;> cases getKey vars "ns" <;>
        cases getKey vars "SC" <;> cases getKey vars "sc" <;> rfl
    · unfold signup
      rw [h1, h2]
      cases getKey vars "NS" <;> cases getKey vars "ns" <;>
        cases getKey vars "DB" <;> cases getKey vars "db" <;> rfl
  · intro n d s hres hsv
    rw [signup_eq_sc env s0 vars n d s hres]
    simp [sc, htx, hsv]
  · intro n d s sv hres hsv hsgn
    rw [signup_eq_sc env s0 vars n d s hres]
    simp [sc, htx, hsv, hsgn]
  · intro n d s sv val hres hsv hsgn hcmp
    rw [signup_eq_sc env s0 vars n d s hres]
    simp [sc, htx, hsv, hsgn, hcmp]
  · intro n d s sv val v hres hsv hsgn hcmp hrec
    rw [signup_eq_sc env s0 vars n d s hres]
    simp [sc, htx, hsv, hsgn, hcmp, hrec]
  · intro n d s sv val v rid ex hres hsv hsgn hcmp hrec hex henc
    rw [signup_eq_sc env s0 vars n d s hres]
    simp [sc, htx, hsv, hsgn, hcmp, hrec, hex, finishSc, henc]

theorem signup_failures_all_invalid_auth_witness :
    (signup exEnvEncFail {} []).res = .err .InvalidAuth ∧
    (signup exEnvEncFail {} exVars).res = .err .InvalidAuth :=
  ⟨(signup_failures_all_invalid_auth exEnvEncFail {} [] rfl).1 (Or.inl ⟨rfl, rfl⟩),
    (signup_failures_all_invalid_auth exEnvEncFail {} exVars rfl).2.2.2.2.2
      "n" "d" "s" exScope (Value.strand "CREATE user") (Value.thing ⟨"user", "1"⟩)
      ⟨"user", "1"⟩ (1000 + 900) rfl rfl rfl rfl rfl rfl rfl⟩

/-- C2 counterexample: it is not true that every erroring signup leaves the
session unchanged.  On an environment where only token signing fails, signup
returns the InvalidAuth error yet has already overwritten the session (the
mutation at signup.rs lines 88-97 precedes the check of the signing result
at line 99): starting from the default session, the namespace field ends up
set. -/
theorem signup_err_can_mutate_session :
    ¬ (∀ (env : SignupEnv) (s0 : Session) (vars : List (String × Value)),
        (signup env s0 vars).res.isErr = true →
        (signup env s0 vars).session = s0) := by
  intro h
  have hsess := h exEnvEncFail {} exVars rfl
  exact Option.noConfusion
    ((show some "n" = (signup exEnvEncFail {} exVars).session.ns from rfl).trans
      ((congrArg Session.ns hsess).trans rfl))

/-- C2 (amended): an erroring signup leaves the caller's session unchanged
in every case in which the flow fails before the token-signing step; when
the signing step itself is the failure, the session has already been
mutated (as the C2 counterexample shows). -/
theorem sc_err_before_signing_preserves_session (env : SignupEnv)
    (s0 : Session) (n d s : String) (vars : List (String × Value))
    (henc : Effect.encodeToken ∉ (sc env s0 n d s vars).effects) :
    (sc env s0 n d s vars).session = s0 := by
  cases htx : env.tx with
  | error e => simp [sc, htx]
  | ok u =>
    cases hsv : env.get_sc n d s with
    | none => simp [sc, htx, hsv]
    | some sv =>
      cases hsgn : sv.signup with
      | none => simp [sc, htx, hsv, hsgn]
      | some val =>
        cases hcmp : env.compute val ((Session.editor.with_ns n).with_db d) vars with
        | error e => simp [sc, htx, hsv, hsgn, hcmp]
        | ok v =>
          cases hrec : v.record with
          | none => simp [sc, htx, hsv, hsgn, hcmp, hrec]
          | some rid =>
            cases hex : scExp env sv with
            | none => simp [sc, htx, hsv, hsgn, hcmp, hrec, hex]
            | some ex =>
              exfalso
              apply henc
              simp only [sc, htx, hsv, hsgn, hcmp, hrec, hex, finishSc]
              cases env.encode sv.code (signupClaims env n d s ex rid) <;> simp

theorem signup_err_before_signing_preserves_session (env : SignupEnv)
    (s0 : Session) (vars : List (String × Value))
    (herr : (signup env s0 vars).res.isErr = true)
    (henc : Effect.encodeToken ∉ (signup env s0 vars).effects) :
    (signup env s0 vars).session = s0 := by
  rw [signup_eq_resolved] at henc ⊢
  cases hres : resolvedKeys vars with
  | none => rfl
  | some t =>
    obtain ⟨n, d, s⟩ := t
    rw [hres] at henc
    exact sc_err_before_signing_preserves_session env s0 n d s vars henc

theorem signup_err_before_signing_preserves_session_witness :
    (signup exEnvOk {} []).session = {} :=
  signup_err_before_signing_preserves_session exEnvOk {} [] rfl (by decide)

/-- C3: for every successful signup the issued claims, as stored on the
session, satisfy exp = iat + the configured session duration in seconds,
with exp = iat + 3600 when the scope has no session duration. -/
theorem signup_exp_eq_iat_add_duration (env : SignupEnv) (s0 : Session)
    (vars : List (String × Value)) (n d s : String)
    (sv : DefineScopeStatement) (tk : String)
    (hres : resolvedKeys vars = some (n, d, s))
    (hsv : env.get_sc n d s = some sv)
    (hok : (signup env s0 vars).res = .ok (some tk)) :
    ∃ cl iat, (signup env s0 vars).session.tk = some cl ∧
      cl.iat = some iat ∧
      cl.exp = some (iat + (match sv.session with
        | some du => (du : Int)
        | Option.none => 3600)) := by
  rw [signup_eq_sc env s0 vars n d s hres] at hok ⊢
  obtain ⟨sv', val, v, rid, ex, hsv', hsgn, hcmp, hrec, hex, heq⟩ :=
    sc_success_shape env s0 n d s vars tk hok
  have e : sv = sv' := Option.some_injective _ (hsv.symm.trans hsv')
  subst e
  rw [heq, finishSc_session]
  refine ⟨signupClaims env n d s ex rid, env.now, rfl, rfl, ?_⟩
  unfold scExp at hex
  cases hdu : sv.session with
  | none =>
    rw [hdu] at hex
    have hex2 : (some (env.now + 3600) : Option Int) = some ex := hex
    obtain rfl := Option.some_injective _ hex2
    simp [signupClaims]
  | some du =>
    rw [hdu] at hex
    have hex2 : (fromStd du).map (fun cd => env.now + cd) = some ex := hex
    unfold fromStd at hex2
    by_cases hle : du * 1000 ≤ 9223372036854775807
    · rw [if_pos hle] at hex2
      have hex3 : (some (env.now + Int.ofNat du) : Option Int) = some ex := hex2
      obtain rfl := Option.some_injective _ hex3
      simp [signupClaims, Int.ofNat_eq_coe]
    · rw [if_neg hle] at hex2
      simp at hex2

theorem signup_exp_eq_iat_add_duration_witness :
    ∃ cl iat, (signup exEnvOk {} exVars).session.tk = some cl ∧
      cl.iat = some iat ∧ cl.exp = some (iat + 900) :=
  signup_exp_eq_iat_add_duration exEnvOk {} exVars "n" "d" "s" exScope "tok"
    rfl rfl rfl

/-- C6: every successful signup sets the session's namespace, database and
scope to the resolved names, the selected document to the record identity
produced by the signup expression, and replaces the actor wholesale with
one whose identity is that record and whose level is Level.scope. -/
theorem signup_success_session_fields (env : SignupEnv) (s0 : Session)
    (vars : List (String × Value)) (n d s : String) (tk : String)
    (hres : resolvedKeys vars = some (n, d, s))
    (hok : (signup env s0 vars).res = .ok (some tk)) :
    ∃ rid : Thing,
      (signup env s0 vars).session.ns = some n ∧
      (signup env s0 vars).session.db = some d ∧
      (signup env s0 vars).session.sc = some s ∧
      (signup env s0 vars).session.sd = some (Value.thing rid) ∧
      (signup env s0 vars).session.au =
        Auth.new (Actor.new rid.to_raw [] (Level.scope n d s)) ∧
      ∀ sv val v, env.get_sc n d s = some sv → sv.signup = some val →
        env.compute val ((Session.editor.with_ns n).with_db d) vars = .ok v →
        v.record = some rid := by
  rw [signup_eq_sc env s0 vars n d s hres] at hok ⊢
  obtain ⟨sv, val, v, rid, ex, hsv, hsgn, hcmp, hrec, hex, heq⟩ :=
    sc_success_shape env s0 n d s vars tk hok
  rw [heq, finishSc_session]
  refine ⟨rid, rfl, rfl, rfl, rfl, rfl, ?_⟩
  intro sv2 val2 v2 hsv2 hsgn2 hcmp2
  cases Option.some_injective _ (hsv.symm.trans hsv2)
  cases Option.some_injective _ (hsgn.symm.trans hsgn2)
  cases (Except.ok.injEq _ _).mp (hcmp.symm.trans hcmp2)
  exact hrec

theorem signup_success_session_fields_witness :
    ∃ rid : Thing,
      (signup exEnvOk {} exVars).session.ns = some "n" ∧
      (signup exEnvOk {} exVars).session.db = some "d" ∧
      (signup exEnvOk {} exVars).session.sc = some "s" ∧
      (signup exEnvOk {} exVars).session.sd = some (Value.thing rid) ∧
      (signup exEnvOk {} exVars).session.au =
        Auth.new (Actor.new rid.to_raw [] (Level.scope "n" "d" "s")) ∧
      ∀ sv val v, exEnvOk.get_sc "n" "d" "s" = some sv → sv.signup = some val →
        exEnvOk.compute val ((Session.editor.with_ns "n").with_db "d") exVars = .ok v →
        v.record = some rid :=
  signup_success_session_fields exEnvOk {} exVars "n" "d" "s" "tok" rfl rfl

/-- C8: calling signup with variables lacking the sc key in both cases
returns InvalidAuth with no store-facing effect at all (no transaction, no
lookup) and an unchanged session. -/
theorem signup_missing_sc_no_store (env : SignupEnv) (s0 : Session)
    (vars : List (String × Value))
    (h1 : getKey vars "SC" = Option.none) (h2 : getKey vars "sc" = Option.none) :
    (signup env s0 vars).res = .err .InvalidAuth ∧
    (signup env s0 vars).effects = [] ∧
    (signup env s0 vars).session = s0 := by
  unfold signup
  rw [h1, h2]
  cases getKey vars "NS" <;> cases getKey vars "ns" <;>
    cases getKey vars "DB" <;> cases getKey vars "db" <;> exact ⟨rfl, rfl, rfl⟩

theorem signup_missing_sc_no_store_witness :
    (signup exEnvOk {} [("ns", Value.strand "n")]).res = .err .InvalidAuth ∧
    (signup exEnvOk {} [("ns", Value.strand "n")]).effects = [] ∧
    (signup exEnvOk {} [("ns", Value.strand "n")]).session = {} :=
  signup_missing_sc_no_store exEnvOk {} [("ns", Value.strand "n")] rfl rfl

/-- C9: signup never returns Ok(None); every outcome is an error, a panic,
or Ok(Some(token)). -/
theorem signup_never_ok_none (env : SignupEnv) (s0 : Session)
    (vars : List (String × Value)) :
    (signup env s0 vars).res ≠ .ok Option.none := by
  rw [signup_eq_resolved]
  cases hres : resolvedKeys vars with
  | none => simp
  | some t =>
    obtain ⟨n, d, s⟩ := t
    exact sc_never_ok_none env s0 n d s vars

/-- C10: when the scope carries a configured session duration and the flow
reaches the claims construction, an in-range duration (at most the signed
64-bit millisecond bound) never panics, while an out-of-range duration
makes the call panic rather than return an error. -/
theorem sc_duration_unwrap (env : SignupEnv) (s0 : Session) (n d s : String)
    (vars : List (String × Value)) (sv : DefineScopeStatement) (val v : Value)
    (rid : Thing) (du : Nat)
    (htx : env.tx = .ok ())
    (hsv : env.get_sc n d s = some sv)
    (hsgn : sv.signup = some val)
    (hcmp : env.compute val ((Session.editor.with_ns n).with_db d) vars = .ok v)
    (hrec : v.record = some rid)
    (hdu : sv.session = some du) :
    (du * 1000 ≤ 9223372036854775807 → (sc env s0 n d s vars).res ≠ .panics)
    ∧ (9223372036854775807 < du * 1000 → (sc env s0 n d s vars).res = .panics) := by
  constructor
  · intro hle
    have hex : scExp env sv = some (env.now + (du : Int)) := by
      simp [scExp, hdu, fromStd, if_pos hle]
    cases henc : env.encode sv.code (signupClaims env n d s (env.now + (du : Int)) rid) with
    | ok tk => simp [sc, htx, hsv, hsgn, hcmp, hrec, hex, finishSc, henc]
    | error e => simp [sc, htx, hsv, hsgn, hcmp, hrec, hex, finishSc, henc]
  · intro hlt
    have hex : scExp env sv = Option.none := by
      simp [scExp, hdu, fromStd, if_neg (not_le.mpr hlt)]
    simp [sc, htx, hsv, hsgn, hcmp, hrec, hex]

theorem sc_duration_unwrap_witness :
    (sc exEnvOk {} "n" "d" "s" exVars).res ≠ .panics ∧
    (sc exEnvHuge {} "n" "d" "s" exVars).res = .panics :=
  ⟨(sc_duration_unwrap exEnvOk {} "n" "d" "s" exVars exScope
      (Value.strand "CREATE user") (Value.thing ⟨"user", "1"⟩) ⟨"user", "1"⟩ 900
      rfl rfl rfl rfl rfl rfl).1 (by decide),
    (sc_duration_unwrap exEnvHuge {} "n" "d" "s" exVars exScopeHuge
      (Value.strand "CREATE user") (Value.thing ⟨"user", "1"⟩) ⟨"user", "1"⟩
      10000000000000000000 rfl rfl rfl rfl rfl rfl).2 (by decide)⟩

/-! ## The DELETE statement: compute -/

/-- The permission level of the executor gate (`dbs::Level`); delete.rs
only ever passes `Level::No`. -/
inductive PermLevel where
  | no

/-- The condition clause (`Cond`), wrapping its expression. -/
structure Cond where
  expr : Value

/-- Modelled from the spec: the output clause (`Output`), one of the four
rendering modes (full updated value, prior value, a diff, or nothing). -/
inductive Output where
  | none
  | diff
  | after
  | before
deriving DecidableEq

/-- The timeout clause (`Timeout`), a duration in whole seconds. -/
structure Timeout where
  secs : Nat
deriving DecidableEq

/-- The DELETE statement AST (delete.rs lines 20-29). -/
structure DeleteStatement where
  what : List Value
  cond : Option Cond := Option.none
  output : Option Output := Option.none
  timeout : Option Timeout := Option.none

/-- A dispatched target queued on the iterator, tagged by the processing
routine delete.rs calls for it (`process_table`, `process_thing`,
`process_model`, `process_array`, `process_object`). -/
inductive Queued where
  | table (v : String)
  | thing (v : Thing)
  | model (v : String)
  | array (v : List Value)
  | object (v : List (String × Value))

/-- The iterator state delete.rs builds: the borrowed condition clause
(line 44) and the queued targets in dispatch order.  The statement's output
and timeout fields are not part of it. -/
structure Iterator where
  cond : Option Cond
  queued : List Queued

/-- The oracle environment for DELETE compute: the permission gate
(`exe.check`), per-target expression evaluation (`w.compute`), and the
iterator's result rendering (`i.output`, outside src, taking exactly the
iterator state the code hands it). -/
structure DeleteEnv where
  check : PermLevel → Except Error Unit
  evalWhat : Value → Except Error Value
  iterOutput : Iterator → Except Error Value

/-- The dispatch of delete.rs lines 49-70: the five accepted target kinds
map to their queue entry; anything else is rejected. -/
def dispatchTarget : Value → Option Queued
  | .table t => some (.table t)
  | .thing t => some (.thing t)
  | .model m => some (.model m)
  | .array a => some (.array a)
  | .object o => some (.object o)
  | _ => Option.none

/-- The loop over `self.what` (delete.rs lines 48-71), returning the result
together with the list of target expressions actually evaluated. -/
def deleteLoop (env : DeleteEnv) (cond : Option Cond) (acc : List Queued) :
    List Value → Except Error Value × List Value
  | [] => (env.iterOutput ⟨cond, acc⟩, [])
  | w :: ws =>
    match env.evalWhat w with
    | .error e => (.error e, [w])
    | .ok v =>
      match dispatchTarget v with
      | some q =>
        let r := deleteLoop env cond (acc ++ [q]) ws
        (r.1, w :: r.2)
      | Option.none => (.error (.DeleteStatementError v), [w])

/-- `DeleteStatement::compute` (delete.rs lines 32-74): permission gate,
then the dispatch loop, then the iterator's output.  Returns the result and
the log of evaluated targets. -/
def DeleteStatement.compute (env : DeleteEnv) (stm : DeleteStatement) :
    Except Error Value × List Value :=
  match env.check .no with
  | .error e => (.error e, [])
  | .ok _ => deleteLoop env stm.cond [] stm.what

/-- A target whose evaluation succeeds with one of the five accepted kinds. -/
def goodTarget (env : DeleteEnv) (w : Value) : Prop :=
  ∃ v q, env.evalWhat w = .ok v ∧ dispatchTarget v = some q

/-- The queue produced by dispatching a list of all-good targets. -/
def queueOf (env : DeleteEnv) : List Value → List Queued
  | [] => []
  | w :: ws =>
    match env.evalWhat w with
    | .ok v =>
      match dispatchTarget v with
      | some q => q :: queueOf env ws
      | Option.none => []
    | .error _ => []

theorem deleteLoop_all_good (env : DeleteEnv) (cond : Option Cond)
    (ws : List Value) :
    ∀ acc, (∀ w ∈ ws, goodTarget env w) →
      deleteLoop env cond acc ws =
        (env.iterOutput ⟨cond, acc ++ queueOf env ws⟩, ws) := by
  induction ws with
  | nil => intro acc h; simp [deleteLoop, queueOf]
  | cons w ws ih =>
    intro acc h
    obtain ⟨v, q, hv, hq⟩ := h w (by simp)
    simp only [deleteLoop, hv, hq, queueOf]
    rw [ih (acc ++ [q]) (fun u hu => h u (by simp [hu]))]
    simp

theorem deleteLoop_first_bad (env : DeleteEnv) (cond : Option Cond)
    (pre : List Value) (w v : Value) (post : List Value) :
    ∀ acc, (∀ u ∈ pre, goodTarget env u) →
      env.evalWhat w = .ok v → dispatchTarget v = Option.none →
      deleteLoop env cond acc (pre ++ w :: post) =
        (.error (.DeleteStatementError v), pre ++ [w]) := by
  induction pre with
  | nil => intro acc h hv hq; simp [deleteLoop, hv, hq]
  | cons u pre ih =>
    intro acc h hv hq
    obtain ⟨vu, qu, hvu, hqu⟩ := h u (by simp)
    simp only [List.cons_append, deleteLoop, hvu, hqu, List.append_eq]
    rw [ih (acc ++ [qu]) (fun x hx => h x (by simp [hx])) hv hq]

/-- C4: with the permission gate passing, every evaluated target of one of
the five accepted kinds is dispatched to its processing routine (first
conjunct: all-good statements reach the iterator's output with the full
dispatch queue and every target evaluated), while the first target of any
other kind aborts compute with a DeleteStatementError carrying that value,
with no later target evaluated or processed (second conjunct: the evaluated
log stops at the offending target). -/
theorem delete_compute_dispatch (env : DeleteEnv) (stm : DeleteStatement)
    (hchk : env.check .no = .ok ()) :
    ((∀ w ∈ stm.what, goodTarget env w) →
      DeleteStatement.compute env stm =
        (env.iterOutput ⟨stm.cond, queueOf env stm.what⟩, stm.what))
    ∧ (∀ pre w v post, stm.what = pre ++ w :: post →
        (∀ u ∈ pre, goodTarget env u) →
        env.evalWhat w = .ok v → dispatchTarget v = Option.none →
        DeleteStatement.compute env stm =
          (.error (.DeleteStatementError v), pre ++ [w])) := by
  constructor
  · intro h
    unfold DeleteStatement.compute
    rw [hchk, deleteLoop_all_good env stm.cond stm.what [] h]
    simp
  · intro pre w v post hsplit hpre hv hq
    unfold DeleteStatement.compute
    rw [hchk, hsplit, deleteLoop_first_bad env stm.cond pre w v post [] hpre hv hq]

/-- A concrete delete environment: gate passes, target expressions evaluate
to themselves, the iterator renders a fixed value. -/
def exDelEnv : DeleteEnv :=
  { check := fun _ => .ok ()
    evalWhat := fun w => .ok w
    iterOutput := fun _ => .ok (Value.strand "out") }

theorem delete_compute_dispatch_witness :
    (DeleteStatement.compute exDelEnv { what := [Value.table "t"] } =
      (.ok (Value.strand "out"), [Value.table "t"])) ∧
    (DeleteStatement.compute exDelEnv
        { what := [Value.table "t", Value.number 1, Value.table "u"] } =
      (.error (.DeleteStatementError (Value.number 1)),
        [Value.table "t", Value.number 1])) :=
  ⟨(delete_compute_dispatch exDelEnv { what := [Value.table "t"] } rfl).1
      (by
        intro w hw
        simp only [List.mem_singleton] at hw
        subst hw
        exact ⟨Value.table "t", Queued.table "t", rfl, rfl⟩),
    (delete_compute_dispatch exDelEnv
        { what := [Value.table "t", Value.number 1, Value.table "u"] } rfl).2
      [Value.table "t"] (Value.number 1) (Value.number 1) [Value.table "u"] rfl
      (by
        intro u hu
        simp only [List.mem_singleton] at hu
        subst hu
        exact ⟨Value.table "t", Queued.table "t", rfl, rfl⟩)
      rfl rfl⟩

/-- C5 counterexample: the value compute returns does not depend on the
statement's output mode, because delete.rs passes only the condition to the
iterator (line 44) and never the output clause; a statement asking for the
prior value (RETURN BEFORE) computes to exactly the same value as one with
no output clause, so the result cannot be rendered according to the output
mode. -/
theorem delete_output_mode_has_no_effect :
    (DeleteStatement.compute exDelEnv
        { what := [Value.table "t"], output := some Output.before }).1 =
      (DeleteStatement.compute exDelEnv { what := [Value.table "t"] }).1 ∧
    some Output.before ≠ (Option.none : Option Output) :=
  ⟨rfl, by simp⟩

/-- C5 (amended): the value compute returns is the iterator's rendering of
the queued targets and condition only; the statement's output and timeout
clauses are parsed and displayed but never consulted by compute. -/
theorem delete_compute_ignores_output_timeout (env : DeleteEnv)
    (stm : DeleteStatement) (o1 o2 : Option Output) (t1 t2 : Option Timeout) :
    DeleteStatement.compute env { stm with output := o1, timeout := t1 } =
      DeleteStatement.compute env { stm with output := o2, timeout := t2 } := rfl

/-! ## The DELETE statement: parser and Display

The `delete` combinator itself is delete.rs lines 93-110; its sub-parsers
(`shouldbespace`, `whats`, `cond`, `output`, `timeout`) live outside src and
are modelled from the spec's grammar: targets are comma-separated plain
identifiers (table names), the condition expression is restricted to a
plain identifier, the output clause is one of the four rendering modes, and
the timeout duration is a whole number of seconds.  Parsers work on char
lists and return the unconsumed remainder, as the nom combinators do. -/

/-- An identifier character: alphanumeric or underscore. -/
def isIdentChar (c : Char) : Bool := c.isAlphanum || c = '_'

/-- A space character. -/
def spaceCh (c : Char) : Bool := c = ' '

def kwDELETE : List Char := ['D', 'E', 'L', 'E', 'T', 'E']
def kwFROM : List Char := ['F', 'R', 'O', 'M']
def kwWHERE : List Char := ['W', 'H', 'E', 'R', 'E']
def kwRETURN : List Char := ['R', 'E', 'T', 'U', 'R', 'N']
def kwNONE : List Char := ['N', 'O', 'N', 'E']
def kwDIFF : List Char := ['D', 'I', 'F', 'F']
def kwAFTER : List Char := ['A', 'F', 'T', 'E', 'R']
def kwBEFORE : List Char := ['B', 'E', 'F', 'O', 'R', 'E']
def kwTIMEOUT : List Char := ['T', 'I', 'M', 'E', 'O', 'U', 'T']

/-- nom's `tag_no_case`: consume the keyword case-insensitively. -/
def tagNoCase : List Char → List Char → Option (List Char)
  | [], i => some i
  | _ :: _, [] => Option.none
  | k :: ks, c :: cs => if c.toLower = k.toLower then tagNoCase ks cs else Option.none

/-- Modelled from the spec: `shouldbespace`, one or more spaces. -/
def shouldbespace (i : List Char) : Option (List Char) :=
  match i with
  | c :: r => if spaceCh c then some (r.dropWhile spaceCh) else Option.none
  | [] => Option.none

def skipSpaces (i : List Char) : List Char := i.dropWhile spaceCh

/-- Take a nonempty maximal run of identifier characters. -/
def takeIdent (i : List Char) : Option (List Char × List Char) :=
  match i.takeWhile isIdentChar with
  | [] => Option.none
  | c :: cs => some (c :: cs, i.dropWhile isIdentChar)

/-- Modelled from the spec: the `commas` separator, a comma with optional
surrounding spaces. -/
def parseSep (i : List Char) : Option (List Char) :=
  match skipSpaces i with
  | ',' :: r => some (skipSpaces r)
  | _ => Option.none

theorem length_dropWhile_le (p : Char → Bool) (l : List Char) :
    (l.dropWhile p).length ≤ l.length := by
  induction l with
  | nil => simp [List.dropWhile]
  | cons c cs ih =>
    rw [List.dropWhile_cons]
    split
    · exact Nat.le_succ_of_le ih
    · exact Nat.le_refl _

theorem takeIdent_some (i w r : List Char) (h : takeIdent i = some (w, r)) :
    w = i.takeWhile isIdentChar ∧ r = i.dropWhile isIdentChar ∧ w ≠ [] := by
  unfold takeIdent at h
  cases ht : i.takeWhile isIdentChar with
  | nil => rw [ht] at h; cases h
  | cons c cs =>
    rw [ht] at h
    injection h with h2
    injection h2 with ha hb
    exact ⟨ha.symm, hb.symm, by rw [← ha]; simp⟩

theorem takeIdent_lt (i w r : List Char) (h : takeIdent i = some (w, r)) :
    r.length < i.length := by
  obtain ⟨hw, hr, hne⟩ := takeIdent_some i w r h
  have hsplit : i.takeWhile isIdentChar ++ i.dropWhile isIdentChar = i :=
    List.takeWhile_append_dropWhile isIdentChar i
  have : (i.takeWhile isIdentChar).length + (i.dropWhile isIdentChar).length = i.length := by
    rw [← List.length_append, hsplit]
  have hwlen : 0 < (i.takeWhile isIdentChar).length := by
    rw [← hw]
    cases w with
    | nil => exact absurd rfl hne
    | cons c cs => simp
  rw [hr]
  omega

theorem parseSep_lt (i r : List Char) (h : parseSep i = some r) :
    r.length < i.length := by
  unfold parseSep at h
  cases hs : skipSpaces i with
  | nil => rw [hs] at h; cases h
  | cons c cs =>
    rw [hs] at h
    have hlen : cs.length < i.length := by
      have h1 : (c :: cs).length ≤ i.length := by
        rw [← hs]; exact length_dropWhile_le spaceCh i
      simp at h1
      omega
    by_cases hc : c = ','
    · subst hc
      simp at h
      subst h
      exact Nat.lt_of_le_of_lt (length_dropWhile_le spaceCh cs) hlen
    · exfalso
      cases c with
      | mk v hv =>
        revert h
        split
        · next heq =>
          intro h
          injection heq with hc2
          exact hc (by rw [hc2])
        · intro h; cases h

/-- The target-list parser (spec §4.4 `<targets>`): a nonempty
comma-separated list of identifiers, with nom's backtracking (a separator
not followed by an identifier is left unconsumed).  Structured on explicit
fuel so that it is kernel-computable; `parseWhats` instantiates the fuel
with a sufficient bound. -/
def parseWhatsF : Nat → List Char → Option (List (List Char) × List Char)
  | 0, _ => Option.none
  | Nat.succ fuel, i =>
    match takeIdent i with
    | Option.none => Option.none
    | some (w, rest) =>
      match parseSep rest with
      | Option.none => some ([w], rest)
      | some r2 =>
        match parseWhatsF fuel r2 with
        | some (ws, r3) => some (w :: ws, r3)
        | Option.none => some ([w], rest)

def parseWhats (i : List Char) : Option (List (List Char) × List Char) :=
  parseWhatsF (i.length + 1) i

theorem parseWhatsF_stable (f1 : Nat) :
    ∀ (f2 : Nat) (i : List Char), i.length < f1 → i.length < f2 →
      parseWhatsF f1 i = parseWhatsF f2 i := by
  induction f1 with
  | zero => intro f2 i h1 h2; omega
  | succ f1 ih =>
    intro f2 i h1 h2
    cases f2 with
    | zero => omega
    | succ f2 =>
      show parseWhatsF (f1 + 1) i = parseWhatsF (f2 + 1) i
      unfold parseWhatsF
      split
      · rfl
      · next w rest hti =>
        split
        · rfl
        · next r2 hsep =>
          have hr2 : r2.length < i.length :=
            Nat.lt_trans (parseSep_lt rest r2 hsep) (takeIdent_lt i w rest hti)
          rw [ih f2 r2 (by omega) (by omega)]

/-- The one-step unfolding of `parseWhats`. -/
theorem parseWhats_eq (i : List Char) :
    parseWhats i =
      match takeIdent i with
      | Option.none => Option.none
      | some (w, rest) =>
        match parseSep rest with
        | Option.none => some ([w], rest)
        | some r2 =>
          match parseWhats r2 with
          | some (ws, r3) => some (w :: ws, r3)
          | Option.none => some ([w], rest) := by
  show parseWhatsF (i.length + 1) i = _
  unfold parseWhatsF
  split
  · rfl
  · next w rest hti =>
    split
    · rfl
    · next r2 hsep =>
      have hr2 : r2.length < i.length :=
        Nat.lt_trans (parseSep_lt rest r2 hsep) (takeIdent_lt i w rest hti)
      rw [parseWhatsF_stable i.length (r2.length + 1) r2 (by omega) (by omega)]
      rfl

/-- The decimal digit character for a value below ten. -/
def digitChar (k : Nat) : Char :=
  match k with
  | 0 => '0' | 1 => '1' | 2 => '2' | 3 => '3' | 4 => '4'
  | 5 => '5' | 6 => '6' | 7 => '7' | 8 => '8' | _ => '9'

/-- The numeric value of a digit character. -/
def digitVal (c : Char) : Nat := c.toNat - 48

/-- Decimal digits of a natural number, most significant first. -/
def natToDigits (n : Nat) : List Char :=
  if h : n < 10 then [digitChar n]
  else natToDigits (n / 10) ++ [digitChar (n % 10)]
termination_by n
decreasing_by exact Nat.div_lt_self (by omega) (by omega)

/-- The value of a digit string, most significant first. -/
def digitsToNat (l : List Char) : Nat :=
  l.foldl (fun acc c => 10 * acc + digitVal c) 0

/-- Take a nonempty maximal run of digits. -/
def takeDigits (i : List Char) : Option (List Char × List Char) :=
  match i.takeWhile Char.isDigit with
  | [] => Option.none
  | c :: cs => some (c :: cs, i.dropWhile Char.isDigit)

/-- Modelled from the spec: the condition clause parser, `WHERE` followed by
an expression (restricted to a plain identifier). -/
def parseCond (i : List Char) : Option (Cond × List Char) :=
  match tagNoCase kwWHERE i with
  | Option.none => Option.none
  | some r =>
    match shouldbespace r with
    | Option.none => Option.none
    | some r2 =>
      match takeIdent r2 with
      | Option.none => Option.none
      | some (w, r3) => some (⟨Value.table w.asString⟩, r3)

/-- Modelled from the spec: the output clause parser, `RETURN` followed by
one of the four mode keywords. -/
def parseOutput (i : List Char) : Option (Output × List Char) :=
  match tagNoCase kwRETURN i with
  | Option.none => Option.none
  | some r =>
    match shouldbespace r with
    | Option.none => Option.none
    | some r2 =>
      match tagNoCase kwNONE r2 with
      | some r3 => some (Output.none, r3)
      | Option.none =>
        match tagNoCase kwDIFF r2 with
        | some r3 => some (Output.diff, r3)
        | Option.none =>
          match tagNoCase kwAFTER r2 with
          | some r3 => some (Output.after, r3)
          | Option.none =>
            match tagNoCase kwBEFORE r2 with
            | some r3 => some (Output.before, r3)
            | Option.none => Option.none

/-- Modelled from the spec: the timeout clause parser, `TIMEOUT` followed by
a whole number of seconds. -/
def parseTimeout (i : List Char) : Option (Timeout × List Char) :=
  match tagNoCase kwTIMEOUT i with
  | Option.none => Option.none
  | some r =>
    match shouldbespace r with
    | Option.none => Option.none
    | some r2 =>
      match takeDigits r2 with
      | Option.none => Option.none
      | some (ds, r3) =>
        match r3 with
        | 's' :: r4 => some (⟨digitsToNat ds⟩, r4)
        | _ => Option.none

/-- nom's `opt(preceded(shouldbespace, p))`: try a leading separator and the
clause; on any failure consume nothing. -/
def optClause {α : Type} (p : List Char → Option (α × List Char))
    (i : List Char) : Option α × List Char :=
  match shouldbespace i with
  | Option.none => (Option.none, i)
  | some r =>
    match p r with
    | some (a, r2) => (some a, r2)
    | Option.none => (Option.none, i)

/-- The `opt(tuple((shouldbespace, tag_no_case("FROM"))))` of delete.rs line
95: when the space-plus-FROM prefix matches, its input is consumed,
otherwise nothing is. -/
def optFrom (r0 : List Char) : List Char :=
  match shouldbespace r0 with
  | some ra =>
    match tagNoCase kwFROM ra with
    | some rb => rb
    | Option.none => r0
  | Option.none => r0

/-- The `delete` parser (delete.rs lines 93-110): the DELETE keyword, an
optional FROM keyword, the target list, then the optional cond, output and
timeout clauses in that order.  Following nom, `opt` consumes nothing when
its inner parser fails, and the statement parses successfully even with
trailing unconsumed input. -/
def parseDelete (i : List Char) : Option (DeleteStatement × List Char) :=
  match tagNoCase kwDELETE i with
  | Option.none => Option.none
  | some r0 =>
    match shouldbespace (optFrom r0) with
    | Option.none => Option.none
    | some r3 =>
      match parseWhats r3 with
      | Option.none => Option.none
      | some (ws, r4) =>
        some ({ what := ws.map (fun w => Value.table w.asString),
                cond := (optClause parseCond r4).1,
                output := (optClause parseOutput (optClause parseCond r4).2).1,
                timeout := (optClause parseTimeout
                  (optClause parseOutput (optClause parseCond r4).2).2).1 },
          (optClause parseTimeout
            (optClause parseOutput (optClause parseCond r4).2).2).2)

/-- Display of a single value in target position (the `Display` of the
value types; only table names occur in parsed statements). -/
def valueDispL : Value → List Char
  | .table t => t.data
  | .strand s => s.data
  | .thing t => t.tb.data ++ ':' :: t.id.data
  | .model m => m.data
  | .number n => (toString n).data
  | .bool b => (toString b).data
  | _ => []

/-- Display of `Values`: the targets joined by a comma and a space. -/
def valuesDispL : List Value → List Char
  | [] => []
  | [v] => valueDispL v
  | v :: vs => valueDispL v ++ ',' :: ' ' :: valuesDispL vs

/-- The keyword of an output mode. -/
def outputKw : Output → List Char
  | .none => kwNONE
  | .diff => kwDIFF
  | .after => kwAFTER
  | .before => kwBEFORE

/-- The rendering of the condition clause, preceded by one space. -/
def condL (d : DeleteStatement) : List Char :=
  match d.cond with
  | some c => ' ' :: (kwWHERE ++ ' ' :: valueDispL c.expr)
  | Option.none => []

/-- The rendering of the output clause, preceded by one space. -/
def outL (d : DeleteStatement) : List Char :=
  match d.output with
  | some o => ' ' :: (kwRETURN ++ ' ' :: outputKw o)
  | Option.none => []

/-- The rendering of the timeout clause, preceded by one space. -/
def timL (d : DeleteStatement) : List Char :=
  match d.timeout with
  | some t => ' ' :: (kwTIMEOUT ++ ' ' :: (natToDigits t.secs ++ ['s']))
  | Option.none => []

/-- The rendering of the three optional clauses, in the order of delete.rs
lines 80-89. -/
def clausesL (d : DeleteStatement) : List Char :=
  condL d ++ (outL d ++ timL d)

/-- Everything the Display writes after `DELETE `. -/
def bodyL (d : DeleteStatement) : List Char := valuesDispL d.what ++ clausesL d

/-- `impl fmt::Display for DeleteStatement` (delete.rs lines 77-91) at the
char-list level: `DELETE {what}` then the optional clauses. -/
def displayL (d : DeleteStatement) : List Char := kwDELETE ++ ' ' :: bodyL d

/-- The Display rendering as a string. -/
def DeleteStatement.display (d : DeleteStatement) : String := (displayL d).asString

/-- The head of the list, if any, falsifies the predicate. -/
def headNotL (p : Char → Bool) : List Char → Prop
  | [] => True
  | c :: _ => p c = false

/-- A well-formed identifier: nonempty, all identifier characters. -/
def wfIdentL (w : List Char) : Prop :=
  w ≠ [] ∧ ∀ c ∈ w, isIdentChar c = true

theorem asString_data (s : String) : s.data.asString = s := rfl

theorem tagNoCase_self (kw : List Char) (r : List Char) :
    tagNoCase kw (kw ++ r) = some r := by
  induction kw with
  | nil => rfl
  | cons k ks ih => simp [tagNoCase, ih]

theorem dropWhile_headNot (p : Char → Bool) (r : List Char)
    (h : headNotL p r) : r.dropWhile p = r := by
  cases r with
  | nil => rfl
  | cons c cs =>
    unfold headNotL at h
    rw [List.dropWhile_cons, if_neg (by rw [h]; exact Bool.false_ne_true)]

theorem takeWhile_headNot (p : Char → Bool) (r : List Char)
    (h : headNotL p r) : r.takeWhile p = [] := by
  cases r with
  | nil => rfl
  | cons c cs =>
    unfold headNotL at h
    rw [List.takeWhile_cons, if_neg (by rw [h]; exact Bool.false_ne_true)]

theorem takeWhile_append_all (p : Char → Bool) (w r : List Char)
    (hw : ∀ c ∈ w, p c = true) :
    (w ++ r).takeWhile p = w ++ r.takeWhile p ∧
    (w ++ r).dropWhile p = r.dropWhile p := by
  induction w with
  | nil => simp
  | cons c cs ih =>
    have hc : p c = true := hw c (by simp)
    have ih2 := ih (fun x hx => hw x (by simp [hx]))
    constructor
    · simp [List.takeWhile_cons, hc, ih2.1]
    · simp [List.dropWhile_cons, hc, ih2.2]

theorem identChar_not_space (c : Char) (h : isIdentChar c = true) :
    spaceCh c = false := by
  unfold spaceCh
  by_contra hc
  rw [Bool.not_eq_false, decide_eq_true_eq] at hc
  subst hc
  exact absurd h (by decide)

theorem takeIdent_render (w rest : List Char) (hw : wfIdentL w)
    (hr : headNotL isIdentChar rest) :
    takeIdent (w ++ rest) = some (w, rest) := by
  obtain ⟨hne, hall⟩ := hw
  have h1 := takeWhile_append_all isIdentChar w rest hall
  have ht : (w ++ rest).takeWhile isIdentChar = w := by
    rw [h1.1, takeWhile_headNot isIdentChar rest hr, List.append_nil]
  have hd : (w ++ rest).dropWhile isIdentChar = rest := by
    rw [h1.2, dropWhile_headNot isIdentChar rest hr]
  unfold takeIdent
  rw [ht, hd]
  cases w with
  | nil => exact absurd rfl hne
  | cons c cs => rfl

theorem shouldbespace_space (r : List Char) (h : headNotL spaceCh r) :
    shouldbespace (' ' :: r) = some r := by
  show (if spaceCh ' ' = true then some (r.dropWhile spaceCh) else Option.none) = some r
  rw [if_pos (by decide)]
  rw [dropWhile_headNot spaceCh r h]

theorem digitChar_isDigit (k : Nat) : (digitChar k).isDigit = true := by
  unfold digitChar
  split <;> decide

theorem digitVal_digitChar (k : Nat) (h : k < 10) :
    digitVal (digitChar k) = k := by
  interval_cases k <;> decide

theorem digitChar_not_space (k : Nat) : spaceCh (digitChar k) = false := by
  unfold digitChar
  split <;> decide

theorem digit_not_space (c : Char) (h : c.isDigit = true) : spaceCh c = false := by
  unfold spaceCh
  by_contra hc
  rw [Bool.not_eq_false, decide_eq_true_eq] at hc
  subst hc
  exact absurd h (by decide)

theorem natToDigits_ne_nil (n : Nat) : natToDigits n ≠ [] := by
  unfold natToDigits
  split
  · simp
  · simp

theorem natToDigits_all_digits (n : Nat) :
    ∀ c ∈ natToDigits n, c.isDigit = true := by
  induction n using Nat.strong_induction_on with
  | _ n ih =>
    unfold natToDigits
    split
    · intro c hc
      simp at hc
      subst hc
      exact digitChar_isDigit n
    · next h =>
      intro c hc
      rw [List.mem_append] at hc
      cases hc with
      | inl h2 => exact ih (n / 10) (Nat.div_lt_self (by omega) (by omega)) c h2
      | inr h2 =>
        simp at h2
        subst h2
        exact digitChar_isDigit (n % 10)

theorem digitsToNat_append (l : List Char) (c : Char) :
    digitsToNat (l ++ [c]) = 10 * digitsToNat l + digitVal c := by
  unfold digitsToNat
  rw [List.foldl_append]
  rfl

theorem digitsToNat_natToDigits (n : Nat) :
    digitsToNat (natToDigits n) = n := by
  induction n using Nat.strong_induction_on with
  | _ n ih =>
    unfold natToDigits
    split
    · next h =>
      show digitsToNat [digitChar n] = n
      unfold digitsToNat
      simp [List.foldl, digitVal_digitChar n h]
    · next h =>
      rw [digitsToNat_append, ih (n / 10) (Nat.div_lt_self (by omega) (by omega)),
        digitVal_digitChar (n % 10) (Nat.mod_lt _ (by omega))]
      omega

theorem takeDigits_render (ds rest : List Char) (hne : ds ≠ [])
    (hds : ∀ c ∈ ds, c.isDigit = true) (hr : headNotL Char.isDigit rest) :
    takeDigits (ds ++ rest) = some (ds, rest) := by
  have h1 := takeWhile_append_all Char.isDigit ds rest hds
  have ht : (ds ++ rest).takeWhile Char.isDigit = ds := by
    rw [h1.1, takeWhile_headNot Char.isDigit rest hr, List.append_nil]
  have hd : (ds ++ rest).dropWhile Char.isDigit = rest := by
    rw [h1.2, dropWhile_headNot Char.isDigit rest hr]
  unfold takeDigits
  rw [ht, hd]
  cases ds with
  | nil => exact absurd rfl hne
  | cons c cs => rfl

theorem takeIdent_wf (i w r : List Char) (h : takeIdent i = some (w, r)) :
    wfIdentL w := by
  obtain ⟨hw, _, hne⟩ := takeIdent_some i w r h
  refine ⟨hne, ?_⟩
  intro c hc
  rw [hw] at hc
  exact List.mem_takeWhile_imp hc

theorem wfIdent_append_headNot_space (w rest : List Char) (hwf : wfIdentL w) :
    headNotL spaceCh (w ++ rest) := by
  obtain ⟨hne, hall⟩ := hwf
  cases w with
  | nil => exact absurd rfl hne
  | cons c cs =>
    show spaceCh c = false
    exact identChar_not_space c (hall c (by simp))

theorem wfIdent_headNot_space (w : List Char) (hwf : wfIdentL w) :
    headNotL spaceCh w := by
  have := wfIdent_append_headNot_space w [] hwf
  rwa [List.append_nil] at this

/-- Parsing the rendered condition clause body. -/
theorem parseCond_render (t : String) (rest : List Char)
    (hwf : wfIdentL t.data) (hrest : headNotL isIdentChar rest) :
    parseCond (kwWHERE ++ ' ' :: (t.data ++ rest)) = some (⟨Value.table t⟩, rest) := by
  unfold parseCond
  rw [tagNoCase_self kwWHERE]
  simp only [shouldbespace_space (t.data ++ rest) (wfIdent_append_headNot_space t.data rest hwf)]
  simp only [takeIdent_render t.data rest hwf hrest]
  rw [asString_data]

/-- Parsing the rendered output clause body. -/
theorem parseOutput_render (o : Output) (rest : List Char) :
    parseOutput (kwRETURN ++ ' ' :: (outputKw o ++ rest)) = some (o, rest) := by
  cases o <;> rfl

/-- Parsing the rendered timeout clause body. -/
theorem parseTimeout_render (n : Nat) (rest : List Char) :
    parseTimeout (kwTIMEOUT ++ ' ' :: (natToDigits n ++ 's' :: rest)) =
      some (⟨n⟩, rest) := by
  have hsp : headNotL spaceCh (natToDigits n ++ 's' :: rest) := by
    cases hnd : natToDigits n with
    | nil => exact absurd hnd (natToDigits_ne_nil n)
    | cons c cs =>
      show spaceCh c = false
      exact digit_not_space c (natToDigits_all_digits n c (by rw [hnd]; simp))
  have hsd : headNotL Char.isDigit ('s' :: rest) := by
    show Char.isDigit 's' = false
    decide
  unfold parseTimeout
  rw [tagNoCase_self kwTIMEOUT]
  simp only [shouldbespace_space (natToDigits n ++ 's' :: rest) hsp]
  simp only [takeDigits_render (natToDigits n) ('s' :: rest) (natToDigits_ne_nil n)
    (natToDigits_all_digits n) hsd]
  simp only [digitsToNat_natToDigits]

theorem optClause_nil {α : Type} (p : List Char → Option (α × List Char)) :
    optClause p [] = (Option.none, []) := rfl

theorem optClause_succeed {α : Type} (p : List Char → Option (α × List Char))
    (r : List Char) (a : α) (r2 : List Char)
    (hr : headNotL spaceCh r) (hp : p r = some (a, r2)) :
    optClause p (' ' :: r) = (some a, r2) := by
  unfold optClause
  rw [shouldbespace_space r hr]
  simp only [hp]

theorem optClause_fail {α : Type} (p : List Char → Option (α × List Char))
    (r : List Char) (hr : headNotL spaceCh r) (hp : p r = Option.none) :
    optClause p (' ' :: r) = (Option.none, ' ' :: r) := by
  unfold optClause
  rw [shouldbespace_space r hr]
  simp only [hp]

theorem parseSep_space_cons (k : Char) (cs : List Char)
    (hk : spaceCh k = false) (hck : k ≠ ',') :
    parseSep (' ' :: k :: cs) = Option.none := by
  unfold parseSep skipSpaces
  rw [List.dropWhile_cons, if_pos (by decide : spaceCh ' ' = true)]
  rw [List.dropWhile_cons, if_neg (by rw [hk]; exact Bool.false_ne_true)]
  split
  · next r heq =>
    injection heq with h1 h2
    exact absurd h1 hck
  · rfl

theorem outTim_headNot_ident (d : DeleteStatement) :
    headNotL isIdentChar (outL d ++ timL d) := by
  cases ho : d.output with
  | some o =>
    simp only [outL, ho, List.cons_append]
    show isIdentChar ' ' = false
    decide
  | none =>
    simp only [outL, ho, List.nil_append]
    cases ht : d.timeout with
    | some t =>
      simp only [timL, ht]
      show isIdentChar ' ' = false
      decide
    | none => simp only [timL, ht]; trivial

theorem clauses_headNot_ident (d : DeleteStatement) :
    headNotL isIdentChar (clausesL d) := by
  unfold clausesL
  cases hc : d.cond with
  | some c =>
    simp only [condL, hc, List.cons_append]
    show isIdentChar ' ' = false
    decide
  | none =>
    simp only [condL, hc, List.nil_append]
    exact outTim_headNot_ident d

theorem clauses_sep_none (d : DeleteStatement) :
    parseSep (clausesL d) = Option.none := by
  unfold clausesL
  cases hc : d.cond with
  | some c =>
    simp only [condL, hc, List.cons_append, List.append_assoc]
    exact parseSep_space_cons 'W' _ (by decide) (by decide)
  | none =>
    simp only [condL, hc, List.nil_append]
    cases ho : d.output with
    | some o =>
      simp only [outL, ho, List.cons_append, List.append_assoc]
      exact parseSep_space_cons 'R' _ (by decide) (by decide)
    | none =>
      simp only [outL, ho, List.nil_append]
      cases ht : d.timeout with
      | some t =>
        simp only [timL, ht]
        exact parseSep_space_cons 'T' _ (by decide) (by decide)
      | none => simp only [timL, ht]; rfl

theorem optTimeout_step (d : DeleteStatement) :
    optClause parseTimeout (timL d) = (d.timeout, []) := by
  cases ht : d.timeout with
  | none => simp only [timL, ht]; rfl
  | some t =>
    simp only [timL, ht]
    have hk : headNotL spaceCh (kwTIMEOUT ++ ' ' :: (natToDigits t.secs ++ ['s'])) := by
      show spaceCh 'T' = false
      decide
    exact optClause_succeed parseTimeout _ t []
      hk (parseTimeout_render t.secs [])

theorem optOutput_step (d : DeleteStatement) :
    optClause parseOutput (outL d ++ timL d) = (d.output, timL d) := by
  cases ho : d.output with
  | some o =>
    simp only [outL, ho, List.cons_append, List.append_assoc]
    have hk : headNotL spaceCh (kwRETURN ++ ' ' :: outputKw o ++ timL d) := by
      show spaceCh 'R' = false
      decide
    have hp := parseOutput_render o (timL d)
    exact optClause_succeed parseOutput _ o (timL d) hk
      (by simpa [List.append_assoc] using hp)
  | none =>
    simp only [outL, ho, List.nil_append]
    cases ht : d.timeout with
    | none => simp only [timL, ht]; rfl
    | some t =>
      simp only [timL, ht]
      have hk : headNotL spaceCh (kwTIMEOUT ++ ' ' :: (natToDigits t.secs ++ ['s'])) := by
        show spaceCh 'T' = false
        decide
      exact optClause_fail parseOutput _ hk rfl

theorem optCond_step (d : DeleteStatement)
    (hcond : ∀ c, d.cond = some c →
      ∃ t : String, c.expr = Value.table t ∧ wfIdentL t.data) :
    optClause parseCond (condL d ++ (outL d ++ timL d)) =
      (d.cond, outL d ++ timL d) := by
  cases hc : d.cond with
  | some c =>
    obtain ⟨t, hct, htwf⟩ := hcond c hc
    cases c with
    | mk e =>
      simp only at hct
      subst hct
      simp only [condL, hc, List.cons_append, List.append_assoc, valueDispL]
      have hk : headNotL spaceCh (kwWHERE ++ ' ' :: t.data ++ (outL d ++ timL d)) := by
        show spaceCh 'W' = false
        decide
      have hp := parseCond_render t (outL d ++ timL d) htwf (outTim_headNot_ident d)
      exact optClause_succeed parseCond _ ⟨Value.table t⟩ (outL d ++ timL d) hk
        (by simpa [List.append_assoc] using hp)
  | none =>
    simp only [condL, hc, List.nil_append]
    cases ho : d.output with
    | some o =>
      simp only [outL, ho, List.cons_append, List.append_assoc]
      have hk : headNotL spaceCh (kwRETURN ++ ' ' :: outputKw o ++ timL d) := by
        show spaceCh 'R' = false
        decide
      exact optClause_fail parseCond _ hk rfl
    | none =>
      simp only [outL, ho, List.nil_append]
      cases ht : d.timeout with
      | none => simp only [timL, ht]; rfl
      | some t =>
        simp only [timL, ht]
        have hk : headNotL spaceCh (kwTIMEOUT ++ ' ' :: (natToDigits t.secs ++ ['s'])) := by
          show spaceCh 'T' = false
          decide
        exact optClause_fail parseCond _ hk rfl

theorem parseSep_comma_space (x : List Char) (hx : headNotL spaceCh x) :
    parseSep (',' :: ' ' :: x) = some x := by
  unfold parseSep skipSpaces
  rw [List.dropWhile_cons, if_neg (by decide : ¬ (spaceCh ',' = true))]
  show some (skipSpaces (' ' :: x)) = some x
  unfold skipSpaces
  rw [List.dropWhile_cons, if_pos (by decide : spaceCh ' ' = true)]
  rw [dropWhile_headNot spaceCh x hx]

theorem wfTable_headNot_space (v : Value) (vs : List Value) (rest : List Char)
    (hwf : ∃ t : String, v = Value.table t ∧ wfIdentL t.data) :
    headNotL spaceCh (valuesDispL (v :: vs) ++ rest) := by
  obtain ⟨t, rfl, hne, hall⟩ := hwf
  cases ht : t.data with
  | nil => exact absurd ht hne
  | cons c cs =>
    have hc : isIdentChar c = true := hall c (by rw [ht]; simp)
    cases vs with
    | nil =>
      show headNotL spaceCh (t.data ++ rest)
      rw [ht]
      show spaceCh c = false
      exact identChar_not_space c hc
    | cons v2 vs2 =>
      show headNotL spaceCh
        ((t.data ++ ',' :: ' ' :: valuesDispL (v2 :: vs2)) ++ rest)
      rw [ht]
      show spaceCh c = false
      exact identChar_not_space c hc

/-- Parsing the rendered target list followed by a non-identifier,
non-separator remainder recovers the targets and the remainder. -/
theorem parseWhats_render (vs : List Value) (rest : List Char)
    (hne : vs ≠ [])
    (hwf : ∀ v ∈ vs, ∃ t : String, v = Value.table t ∧ wfIdentL t.data)
    (hrest : headNotL isIdentChar rest)
    (hsep : parseSep rest = Option.none) :
    ∃ ws, parseWhats (valuesDispL vs ++ rest) = some (ws, rest) ∧
      ws.map (fun w => Value.table w.asString) = vs := by
  induction vs with
  | nil => exact absurd rfl hne
  | cons v vs ih =>
    obtain ⟨t, hv, htwf⟩ := hwf v (by simp)
    subst hv
    cases vs with
    | nil =>
      refine ⟨[t.data], ?_, by simp [asString_data]⟩
      show parseWhats (t.data ++ rest) = some ([t.data], rest)
      rw [parseWhats_eq, takeIdent_render t.data rest htwf hrest]
      simp only [hsep]
    | cons v2 vs2 =>
      obtain ⟨ws2, hp2, hmap⟩ :=
        ih (by simp) (fun u hu => hwf u (by simp [hu]))
      refine ⟨t.data :: ws2, ?_, by simp [asString_data, hmap]⟩
      have hform : valuesDispL (Value.table t :: v2 :: vs2) ++ rest =
          t.data ++ (',' :: ' ' :: (valuesDispL (v2 :: vs2) ++ rest)) := by
        show (t.data ++ ',' :: ' ' :: valuesDispL (v2 :: vs2)) ++ rest = _
        rw [List.append_assoc]
        rfl
      rw [hform, parseWhats_eq,
        takeIdent_render t.data (',' :: ' ' :: (valuesDispL (v2 :: vs2) ++ rest)) htwf
          (by show isIdentChar ',' = false; decide)]
      have hx : headNotL spaceCh (valuesDispL (v2 :: vs2) ++ rest) :=
        wfTable_headNot_space v2 vs2 rest (hwf v2 (by simp))
      simp only [parseSep_comma_space _ hx, hp2]

/-- Re-parsing the Display rendering of a well-formed statement whose body
does not begin with the letters FROM recovers the statement exactly. -/
theorem parseDelete_render (d : DeleteStatement)
    (hne : d.what ≠ [])
    (hwhat : ∀ v ∈ d.what, ∃ t : String, v = Value.table t ∧ wfIdentL t.data)
    (hcond : ∀ c, d.cond = some c →
      ∃ t : String, c.expr = Value.table t ∧ wfIdentL t.data)
    (hfrom : tagNoCase kwFROM (bodyL d) = Option.none) :
    parseDelete (displayL d) = some (d, []) := by
  have hbody_sp : headNotL spaceCh (bodyL d) := by
    unfold bodyL
    cases hw : d.what with
    | nil => exact absurd hw hne
    | cons v vs =>
      exact wfTable_headNot_space v vs (clausesL d) (hwhat v (by rw [hw]; simp))
  obtain ⟨ws, hpw, hmap⟩ := parseWhats_render d.what (clausesL d) hne hwhat
    (clauses_headNot_ident d) (clauses_sep_none d)
  have hof : optFrom (' ' :: bodyL d) = ' ' :: bodyL d := by
    unfold optFrom
    rw [shouldbespace_space (bodyL d) hbody_sp]
    simp only [hfrom]
  have hpw2 : parseWhats (bodyL d) = some (ws, condL d ++ (outL d ++ timL d)) := hpw
  show parseDelete (kwDELETE ++ ' ' :: bodyL d) = some (d, [])
  unfold parseDelete
  rw [tagNoCase_self kwDELETE]
  simp only [hof, shouldbespace_space (bodyL d) hbody_sp, hpw2,
    optCond_step d hcond, optOutput_step d, optTimeout_step d, hmap]

theorem parseWhatsF_wf (fuel : Nat) :
    ∀ i ws r, parseWhatsF fuel i = some (ws, r) →
      ws ≠ [] ∧ ∀ w ∈ ws, wfIdentL w := by
  induction fuel with
  | zero => intro i ws r h; cases h
  | succ fuel ih =>
    intro i ws r h
    unfold parseWhatsF at h
    split at h
    · cases h
    · next w rest hti =>
      have hwWf : wfIdentL w := takeIdent_wf i w rest hti
      split at h
      · injection h with h2
        injection h2 with ha hb
        subst ha
        exact ⟨by simp, fun x hx => by
          simp only [List.mem_singleton] at hx
          subst hx
          exact hwWf⟩
      · next r2 hsep =>
        split at h
        · next ws2 r3 hrec =>
          injection h with h2
          injection h2 with ha hb
          subst ha
          refine ⟨by simp, fun x hx => ?_⟩
          rcases List.mem_cons.mp hx with hx | hx
          · subst hx
            exact hwWf
          · exact (ih _ ws2 r3 hrec).2 x hx
        · injection h with h2
          injection h2 with ha hb
          subst ha
          exact ⟨by simp, fun x hx => by
            simp only [List.mem_singleton] at hx
            subst hx
            exact hwWf⟩

theorem parseWhats_wf (i : List Char) (ws : List (List Char)) (r : List Char)
    (h : parseWhats i = some (ws, r)) :
    ws ≠ [] ∧ ∀ w ∈ ws, wfIdentL w :=
  parseWhatsF_wf (i.length + 1) i ws r h

theorem parseCond_wf (i : List Char) (c : Cond) (r : List Char)
    (h : parseCond i = some (c, r)) :
    ∃ t : String, c.expr = Value.table t ∧ wfIdentL t.data := by
  unfold parseCond at h
  split at h
  · cases h
  · next r0 htag =>
    split at h
    · cases h
    · next r2 hsp =>
      split at h
      · cases h
      · next w r3 hti =>
        injection h with h2
        injection h2 with ha hb
        subst ha
        exact ⟨w.asString, rfl, takeIdent_wf r2 w r3 hti⟩

theorem optCond_wf (i : List Char) (c : Cond)
    (h : (optClause parseCond i).1 = some c) :
    ∃ t : String, c.expr = Value.table t ∧ wfIdentL t.data := by
  unfold optClause at h
  split at h
  · exact Option.noConfusion h
  · next r hsp =>
    split at h
    · next a r2 hp =>
      have ha : a = c := by
        have h2 : some a = some c := h
        injection h2
      subst ha
      exact parseCond_wf r a r2 hp
    · exact Option.noConfusion h

theorem parseDelete_wf (s : List Char) (d : DeleteStatement) (rest : List Char)
    (h : parseDelete s = some (d, rest)) :
    d.what ≠ [] ∧
    (∀ v ∈ d.what, ∃ t : String, v = Value.table t ∧ wfIdentL t.data) ∧
    (∀ c, d.cond = some c →
      ∃ t : String, c.expr = Value.table t ∧ wfIdentL t.data) := by
  unfold parseDelete at h
  split at h
  · cases h
  · next r0 htag =>
    split at h
    · cases h
    · next r3 hsp =>
      split at h
      · cases h
      · next ws r4 hpw =>
        injection h with h2
        injection h2 with ha hb
        subst ha
        obtain ⟨hne, hwf⟩ := parseWhats_wf r3 ws r4 hpw
        refine ⟨by simpa using hne, ?_, ?_⟩
        · intro v hv
          simp only [List.mem_map] at hv
          obtain ⟨w, hw, rfl⟩ := hv
          exact ⟨w.asString, rfl, hwf w hw⟩
        · intro c hc
          exact optCond_wf r4 c hc

/-- The statement parsed from `DELETE test`. -/
def dTest : DeleteStatement := { what := [Value.table "test"] }

/-- The statement parsed from `DELETE FROM fromage`. -/
def dFromage : DeleteStatement := { what := [Value.table "fromage"] }

/-- C7 counterexample: the parse-render-parse round trip fails on the
syntactically valid statement `DELETE FROM fromage`.  It parses (the
optional FROM keyword is consumed, leaving `fromage` as the single target),
but its Display rendering `DELETE fromage` does not re-parse at all: the
`opt(shouldbespace, FROM)` of delete.rs line 95 consumes the FROM-prefix of
the target name, after which the mandatory `shouldbespace` of line 96 fails
on `age`. -/
theorem delete_roundtrip_fails_on_from_prefix :
    parseDelete ("DELETE FROM fromage".data) = some (dFromage, []) ∧
    DeleteStatement.display dFromage = "DELETE fromage" ∧
    parseDelete (("DELETE fromage").data) = Option.none :=
  ⟨rfl, rfl, rfl⟩

/-- C7 (amended): for every parsed DELETE statement whose rendered body
does not begin with the four letters FROM case-insensitively, re-parsing
the Display rendering yields exactly the same statement with no input left;
a statement with no cond/output/timeout clauses renders as exactly
`DELETE <targets>`; and `DELETE test` parses and re-renders to exactly
`DELETE test`. -/
theorem delete_parse_display_roundtrip (s : List Char) (d : DeleteStatement)
    (rest : List Char) (hp : parseDelete s = some (d, rest))
    (hfrom : tagNoCase kwFROM (bodyL d) = Option.none) :
    parseDelete ((DeleteStatement.display d).data) = some (d, []) ∧
    ((d.cond = Option.none ∧ d.output = Option.none ∧ d.timeout = Option.none) →
      (DeleteStatement.display d).data = kwDELETE ++ ' ' :: valuesDispL d.what) ∧
    DeleteStatement.display dTest = "DELETE test" := by
  obtain ⟨h1, h2, h3⟩ := parseDelete_wf s d rest hp
  refine ⟨parseDelete_render d h1 h2 h3 hfrom, ?_, rfl⟩
  rintro ⟨hc, ho, ht⟩
  show displayL d = _
  unfold displayL bodyL clausesL condL outL timL
  rw [hc, ho, ht]
  simp

theorem delete_parse_display_roundtrip_witness :
    parseDelete ((DeleteStatement.display dTest).data) = some (dTest, []) ∧
    ((dTest.cond = Option.none ∧ dTest.output = Option.none ∧
        dTest.timeout = Option.none) →
      (DeleteStatement.display dTest).data = kwDELETE ++ ' ' :: valuesDispL dTest.what) ∧
    DeleteStatement.display dTest = "DELETE test" :=
  delete_parse_display_roundtrip ("DELETE test".data) dTest [] rfl rfl

end SDB
